import Mathlib

/-!
Verification development for the ShareTray repository.

The Python sources are shallowly embedded as Lean definitions:

* Python dicts become association lists (`List (String × α)`) preserving
  insertion order, with `alistGet` (dict lookup) and `alistPut`
  (in-place update of an existing key, else append — exactly Python's
  dict assignment semantics for unique keys).
* Python floats (weights, capacities, coordinates) are embedded as `ℚ`.
  The only transcendental computation in the sources, the haversine
  distance `haversine_distance` of api_app.py, is abstracted as an
  explicit function parameter `dist : Dist`; every theorem below holds
  for an arbitrary `dist`, hence in particular for the haversine metric.
* `uuid.uuid4` id generation is modelled by a fresh-id counter in the
  store, and `datetime` timestamps are omitted: no claim refers to the
  value of a generated id or a timestamp.
* Exceptions become `Except` / error components; stateful functions
  take and return the repository state explicitly, the returned state
  being the store as left behind even when the Python code raises.
-/

namespace ShareTray

/-- Lookup in a Python dict modelled as an association list: the first
entry with the given key. -/
def alistGet {α : Type} (l : List (String × α)) (k : String) : Option α :=
  match l with
  | [] => none
  | p :: t => if p.1 = k then some p.2 else alistGet t k

/-- Python dict assignment `d[k] = v`: replace the value at an existing
key in place (keeping the key's position in iteration order), otherwise
append the new key at the end. -/
def alistPut {α : Type} (l : List (String × α)) (k : String) (v : α) : List (String × α) :=
  match l with
  | [] => [(k, v)]
  | p :: t => if p.1 = k then (k, v) :: t else p :: alistPut t k v

/-- Well-formedness of an id-keyed store: every entry is keyed by its
value's id and keys are unique, as maintained by the `add_*` /
`update_*` repository methods of the sources. -/
abbrev alistWF {α : Type} (idOf : α → String) (l : List (String × α)) : Prop :=
  (∀ p ∈ l, idOf p.2 = p.1) ∧ (l.map Prod.fst).Nodup

/-- Python `candidates.sort(key=...)` followed by `candidates[0]`:
the first element attaining the minimal key (Python's sort is stable,
so ties keep iteration order; the fold replaces only on strictly
smaller keys, which picks the same element). -/
def firstMinBy {α : Type} (key : α → ℚ) : List α → Option α
  | [] => none
  | x :: xs => some (xs.foldl (fun best q => if key q < key best then q else best) x)

/-- Python `list.remove(x)`: drop the first element equal to `x`
(only ever called on lists containing `x` in the sources). -/
def pyRemove {α : Type} [DecidableEq α] (l : List α) (x : α) : List α :=
  match l with
  | [] => []
  | y :: t => if y = x then t else y :: pyRemove t x

/-- Python truthiness of `s or dflt` on `Optional[str]`: `None` and the
empty string are falsy and yield the default. -/
def pyOr (s : Option String) (dflt : String) : String :=
  match s with
  | none => dflt
  | some t => if t = "" then dflt else t

instance instDecEqExcept {ε α : Type} [DecidableEq ε] [DecidableEq α] :
    DecidableEq (Except ε α) := fun x y =>
  match x, y with
  | Except.error a, Except.error b =>
    if h : a = b then isTrue (by rw [h]) else isFalse (fun hh => h (Except.error.inj hh))
  | Except.error _, Except.ok _ => isFalse (fun hh => Except.noConfusion hh)
  | Except.ok _, Except.error _ => isFalse (fun hh => Except.noConfusion hh)
  | Except.ok a, Except.ok b =>
    if h : a = b then isTrue (by rw [h]) else isFalse (fun hh => h (Except.ok.inj hh))

/-- Abstract distance function standing for `haversine_distance(lat1,
lon1, lat2, lon2)` of api_app.py (the haversine formula on a 6371 km
Earth radius, a transcendental function of the coordinates). -/
abbrev Dist := ℚ → ℚ → ℚ → ℚ → ℚ

/-- DonationState enum, identical in state_machine.py and models_repo.py. -/
inductive DonationState where
  | posted
  | matched
  | pickup_scheduled
  | in_transit
  | delivered
  | cancelled
  | expired
deriving DecidableEq

/-- Donation model of state_machine.py (lines 29-34). -/
structure SMDonation where
  id : String
  donor_id : Option String := none
  state : DonationState := DonationState.posted
  matched_recipient_id : Option String := none
  pickup_id : Option String := none
deriving DecidableEq

/-- AuditLogEntry of state_machine.py (lines 36-44); the generated `id`
and the `timestamp` are omitted (no claim mentions them), and the
actor role is kept as the raw role string of the minimal user store. -/
structure SMAuditEntry where
  donation_id : String
  actor_user_id : Option String := none
  actor_role : Option String := none
  old_state : Option DonationState := none
  new_state : DonationState
  notes : Option String := none
deriving DecidableEq

/-- The `InMemoryRepo` of state_machine.py (its own module-level
singleton, line 77): donations, a minimal user store mapping user id
to role, and per-donation audit logs. -/
structure SMRepo where
  donations : List (String × SMDonation) := []
  users : List (String × String) := []
  audit_logs : List (String × List SMAuditEntry) := []
deriving DecidableEq

/-- `ALLOWED_TRANSITIONS` of state_machine.py (lines 80-88). -/
def allowedTransitions : DonationState → List DonationState
  | DonationState.posted => [DonationState.matched, DonationState.cancelled, DonationState.expired]
  | DonationState.matched => [DonationState.pickup_scheduled, DonationState.cancelled, DonationState.expired]
  | DonationState.pickup_scheduled => [DonationState.in_transit, DonationState.cancelled]
  | DonationState.in_transit => [DonationState.delivered, DonationState.cancelled]
  | DonationState.delivered => []
  | DonationState.cancelled => []
  | DonationState.expired => []

/-- Errors raised by `transition_state` (ValueError with the two
messages of state_machine.py lines 93 and 108; the invalid-transition
error names both states). -/
inductive SMError where
  | donationNotFound
  | invalidTransition (src tgt : DonationState)
deriving DecidableEq

/-- Actor-role resolution of state_machine.py lines 99 and 114:
`repo.get_user(a)["role"] if a and repo.get_user(a) else None`; note
that an empty-string actor id is falsy in Python. -/
def smResolveRole (sm : SMRepo) (actor : Option String) : Option String :=
  match actor with
  | none => none
  | some a => if a = "" then none else alistGet sm.users a

/-- The audit trail stored for a donation (`get_audit_logs_for_donation`). -/
def auditFor (sm : SMRepo) (did : String) : List SMAuditEntry :=
  (alistGet sm.audit_logs did).getD []

/-- `add_audit_log` of state_machine.py lines 71-73:
`setdefault(donation_id, []).append(entry)`. -/
def addAudit (sm : SMRepo) (e : SMAuditEntry) : SMRepo :=
  { sm with audit_logs := alistPut sm.audit_logs e.donation_id (auditFor sm e.donation_id ++ [e]) }

/-- `transition_state` of state_machine.py lines 90-120, acting on the
state-machine module's own repository.  The returned `SMRepo` is the
store as the function leaves it (unchanged on both error paths, since
the source raises before any mutation). -/
def transition_state (sm : SMRepo) (donation_id : String) (new_state : DonationState)
    (actor_user_id : Option String) (notes : Option String) :
    SMRepo × Except SMError SMDonation :=
  match alistGet sm.donations donation_id with
  | none => (sm, Except.error SMError.donationNotFound)
  | some d =>
    let old_state := d.state
    if new_state = old_state then
      let entry : SMAuditEntry :=
        { donation_id := d.id, actor_user_id := actor_user_id,
          actor_role := smResolveRole sm actor_user_id,
          old_state := some old_state, new_state := new_state,
          notes := some (pyOr notes ("idempotent transition")) }
      (addAudit sm entry, Except.ok d)
    else if new_state ∈ allowedTransitions old_state then
      let d1 : SMDonation := { d with state := new_state }
      let sm1 : SMRepo := { sm with donations := alistPut sm.donations d1.id d1 }
      let entry : SMAuditEntry :=
        { donation_id := d.id, actor_user_id := actor_user_id,
          actor_role := smResolveRole sm actor_user_id,
          old_state := some old_state, new_state := new_state,
          notes := notes }
      (addAudit sm1 entry, Except.ok d1)
    else (sm, Except.error (SMError.invalidTransition old_state new_state))

/-- Donation model of models_repo.py (lines 49-60); `items`,
`posted_at`, `pickup_by` and `metadata` are omitted (no embedded
operation nor claim reads them).  `location` holds the GeoJSON
`coordinates` array as a `(longitude, latitude)` pair. -/
structure MDonation where
  id : String
  donor_id : String := ""
  total_weight_kg : ℚ := 0
  location : Option (ℚ × ℚ) := none
  state : DonationState := DonationState.posted
  matched_recipient_id : Option String := none
  pickup_id : Option String := none
deriving DecidableEq

/-- Recipient model of models_repo.py (lines 62-68). -/
structure MRecipient where
  id : String
  capacity_kg : ℚ := 0
  location : Option (ℚ × ℚ) := none
deriving DecidableEq

/-- User model of models_repo.py (lines 32-39), reduced to the fields
the embedded operations read (`location` for route planning). -/
structure MUser where
  id : String
  location : Option (ℚ × ℚ) := none
deriving DecidableEq

/-- Pickup model of models_repo.py (lines 70-77); `scheduled_for` and
`metadata` omitted.  `route_order` is a list of (lat, lon) pairs. -/
structure MPickup where
  id : String
  volunteer_id : Option String := none
  donation_ids : List String := []
  route_order : List (ℚ × ℚ) := []
  status : String := "scheduled"
deriving DecidableEq

/-- The `InMemoryRepo` singleton of models_repo.py (line 174), the
store api_app.py imports and uses.  `nextId` is the fresh-id supply
standing for `uuid.uuid4`. -/
structure MRepo where
  users : List (String × MUser) := []
  donations : List (String × MDonation) := []
  recipients : List (String × MRecipient) := []
  pickups : List (String × MPickup) := []
  nextId : Nat := 0
deriving DecidableEq

/-- The whole process state seen by api_app.py: the models_repo store
it imported as `repo`, plus the separate store of the state_machine
module whose `transition_state` it also imported. -/
structure Sys where
  m : MRepo
  sm : SMRepo
deriving DecidableEq

/-- `list_open_donations` of models_repo.py lines 129-130. -/
def list_open_donations (m : MRepo) : List MDonation :=
  (m.donations.map Prod.snd).filter (fun d => d.state = DonationState.posted)

/-- `list_recipients` of models_repo.py lines 137-138. -/
def listRecipients (m : MRepo) : List MRecipient :=
  m.recipients.map Prod.snd

/-- Candidate computation of `greedy_match_local` (api_app.py lines
124-130): recipients with `capacity_kg >= need` and a location whose
distance to the donation is within `max_search_km`, paired with that
distance, in repository iteration order. -/
def matchCandidates (dist : Dist) (maxKm : ℚ) (m : MRepo) (need dlat dlon : ℚ) :
    List (ℚ × MRecipient) :=
  (listRecipients m).filterMap (fun r =>
    if need ≤ r.capacity_kg then
      match r.location with
      | none => none
      | some rloc =>
        let dd := dist dlat dlon rloc.2 rloc.1
        if dd ≤ maxKm then some (dd, r) else none
    else none)

/-- One iteration of the donation loop of `greedy_match_local`
(api_app.py lines 120-139) on donation `d`: skip when the donation has
no location or no candidate; otherwise set `matched_recipient_id` (an
in-place mutation of the stored object, visible even if the later
transition raises), call the imported `transition_state` — which acts
on the state-machine module's repository — and only if it returns
normally decrement the chosen recipient's capacity and report the
assignment.  An `Except.error` result carries the exception aborting
the whole run, with the store as mutated so far. -/
def matchStep (dist : Dist) (maxKm : ℚ) (s : Sys) (d : MDonation) :
    Sys × Except SMError (Option (String × String)) :=
  match d.location with
  | none => (s, Except.ok none)
  | some loc =>
    match firstMinBy Prod.fst (matchCandidates dist maxKm s.m d.total_weight_kg loc.2 loc.1) with
    | none => (s, Except.ok none)
    | some c =>
      let chosen := c.2
      let d1 : MDonation := { d with matched_recipient_id := some chosen.id }
      let m1 : MRepo := { s.m with donations := alistPut s.m.donations d.id d1 }
      match transition_state s.sm d.id DonationState.matched none (some ("auto-match")) with
      | (sm1, Except.error e) => ({ m := m1, sm := sm1 }, Except.error e)
      | (sm1, Except.ok _) =>
        let chosen1 : MRecipient := { chosen with capacity_kg := chosen.capacity_kg - d.total_weight_kg }
        let m2 : MRepo := { m1 with donations := alistPut m1.donations d.id d1,
                                    recipients := alistPut m1.recipients chosen.id chosen1 }
        ({ m := m2, sm := sm1 }, Except.ok (some (d.id, chosen.id)))

/-- The donation loop of `greedy_match_local` over the snapshot list of
open donations, accumulating the `assigned` pairs; a raise from
`transition_state` propagates and aborts the remaining iterations. -/
def greedyLoop (dist : Dist) (maxKm : ℚ) :
    List MDonation → Sys → List (String × String) → Sys × Except SMError (List (String × String))
  | [], s, acc => (s, Except.ok acc)
  | d :: rest, s, acc =>
    match matchStep dist maxKm s d with
    | (s1, Except.error e) => (s1, Except.error e)
    | (s1, Except.ok none) => greedyLoop dist maxKm rest s1 acc
    | (s1, Except.ok (some pr)) => greedyLoop dist maxKm rest s1 (acc ++ [pr])

/-- `greedy_match_local` of api_app.py lines 116-140 (the matcher the
`/match/run` endpoint uses, since no external `matching` module exists
in the repository). -/
def greedy_match_local (dist : Dist) (maxKm : ℚ) (s : Sys) :
    Sys × Except SMError (List (String × String)) :=
  greedyLoop dist maxKm (list_open_donations s.m) s []

/-- Errors of `plan_route_local` (api_app.py lines 145-152): the two
ValueError messages, the second naming the offending donation id. -/
inductive RouteError where
  | volunteerMissing
  | donationMissing (did : String)
deriving DecidableEq

/-- Point collection of `plan_route_local` (api_app.py lines 148-153):
each referenced donation's stored (lon, lat) coordinates appended as a
(lat, lon) pair, failing on the first missing donation or location. -/
def collectPoints (m : MRepo) : List String → Except RouteError (List (ℚ × ℚ))
  | [] => Except.ok []
  | did :: rest =>
    match alistGet m.donations did with
    | none => Except.error (RouteError.donationMissing did)
    | some d =>
      match d.location with
      | none => Except.error (RouteError.donationMissing did)
      | some loc =>
        match collectPoints m rest with
        | Except.error e => Except.error e
        | Except.ok ps => Except.ok ((loc.2, loc.1) :: ps)

/-- The nearest-neighbor loop of `plan_route_local` (api_app.py lines
154-165), written with a fuel argument equal to the number of
remaining points so that the recursion is structural: each iteration
picks the first remaining point of minimal distance to the current
position (stable sort then index 0), appends it, and removes that
first occurrence (`remaining.remove`). -/
def nnLoopFuel (dist : Dist) : Nat → (ℚ × ℚ) → List (ℚ × ℚ) → List (ℚ × ℚ)
  | 0, _, _ => []
  | Nat.succ n, cur, remaining =>
    match firstMinBy (fun p => dist cur.1 cur.2 p.1 p.2) remaining with
    | none => []
    | some nearest => nearest :: nnLoopFuel dist n nearest (pyRemove remaining nearest)

/-- `plan_route_local` of api_app.py lines 142-165 (the planner the
`/pickups/plan` endpoint uses, since no external `routing` module
exists in the repository).  Pure: reads the store, mutates nothing. -/
def plan_route_local (dist : Dist) (m : MRepo) (volunteer_id : String)
    (donation_ids : List String) : Except RouteError (List (ℚ × ℚ)) :=
  match alistGet m.users volunteer_id with
  | none => Except.error RouteError.volunteerMissing
  | some v =>
    match v.location with
    | none => Except.error RouteError.volunteerMissing
    | some vloc =>
      match collectPoints m donation_ids with
      | Except.error e => Except.error e
      | Except.ok points => Except.ok (nnLoopFuel dist points.length (vloc.2, vloc.1) points)

/-- Errors escaping the `/pickups/plan` endpoint: a ValueError from the
route planner, a ValueError from `transition_state`, or the
AttributeError hit when `repo.get_donation(did)` returns None in the
transition loop (api_app.py lines 218-220). -/
inductive AppError where
  | routeErr (e : RouteError)
  | smErr (e : SMError)
  | noneDonation (did : String)
deriving DecidableEq

/-- Fresh pickup id from the id supply standing for `uuid.uuid4`. -/
def genPickupId (n : Nat) : String :=
  "pickup-" ++ toString n

/-- The per-donation loop of `plan_pickup` (api_app.py lines 218-222):
look the donation up in the models_repo store, transition it to
`pickup_scheduled` through the imported `transition_state` (acting on
the state-machine module's store, with the volunteer as actor and note
naming the pickup), then set its `pickup_id` and update it.  A raise
aborts the remaining iterations, keeping all effects made so far. -/
def pickupLoop (pid : String) (vid : String) :
    List String → Sys → Sys × Option AppError
  | [], s => (s, none)
  | did :: rest, s =>
    match alistGet s.m.donations did with
    | none => (s, some (AppError.noneDonation did))
    | some d =>
      match transition_state s.sm d.id DonationState.pickup_scheduled (some vid)
          (some ("pickup " ++ pid ++ " planned")) with
      | (sm1, Except.error e) => ({ s with sm := sm1 }, some (AppError.smErr e))
      | (sm1, Except.ok _) =>
        let d1 : MDonation := { d with pickup_id := some pid }
        let m1 : MRepo := { s.m with donations := alistPut s.m.donations d.id d1 }
        pickupLoop pid vid rest { m := m1, sm := sm1 }

/-- The `/pickups/plan` endpoint `plan_pickup` of api_app.py lines
208-223: plan the route, build and store the Pickup record, then
transition every referenced donation; the returned state carries every
mutation applied before a raise. -/
def plan_pickup (dist : Dist) (s : Sys) (volunteer_id : String) (donation_ids : List String) :
    Sys × Except AppError (String × List (ℚ × ℚ)) :=
  match plan_route_local dist s.m volunteer_id donation_ids with
  | Except.error e => (s, Except.error (AppError.routeErr e))
  | Except.ok ordered =>
    let pid := genPickupId s.m.nextId
    let p : MPickup := { id := pid, volunteer_id := some volunteer_id,
                         donation_ids := donation_ids, route_order := ordered }
    let m1 : MRepo := { s.m with pickups := alistPut s.m.pickups pid p,
                                 nextId := s.m.nextId + 1 }
    match pickupLoop pid volunteer_id donation_ids { m := m1, sm := s.sm } with
    | (s1, none) => (s1, Except.ok (pid, ordered))
    | (s1, some e) => (s1, Except.error e)

/-- Predicate used to state the effects `plan_pickup` leaves behind on
a processed donation: its models_repo record carries the pickup id and
its state-machine record is in `pickup_scheduled`. -/
abbrev PickedUp (pid did : String) (s : Sys) : Prop :=
  (∃ d1, alistGet s.m.donations did = some d1 ∧ d1.pickup_id = some pid) ∧
  (∃ e1, alistGet s.sm.donations did = some e1 ∧ e1.state = DonationState.pickup_scheduled)

/-- Distance function used by the concrete witness states: the claims
proved below hold for every `Dist`, and the concrete refutations only
need some recipient to lie within the search radius, which a constant
zero distance provides (co-located points also have haversine
distance 0). -/
def dist0 : Dist := fun _ _ _ _ => 0

/-- Witness donation: posted, 5 kg, located at (lon 0, lat 0). -/
def mdon1 : MDonation :=
  { id := "d1", donor_id := "u1", total_weight_kg := 5, location := some (0, 0) }

/-- Witness recipient: 100 kg capacity, located at (lon 0, lat 0). -/
def mrec1 : MRecipient :=
  { id := "r1", capacity_kg := 100, location := some (0, 0) }

/-- Witness state exhibiting the two-repository split: the donation and
recipient live in the models_repo store, while the state_machine
module's store is empty — exactly what every sequence of api_app
endpoint calls produces, since only the state_machine module's own
endpoints could populate its store. -/
def sysCross : Sys :=
  { m := { donations := [("d1", mdon1)], recipients := [("r1", mrec1)] }, sm := {} }

/-- Witness state in which the donation id also exists in the
state_machine module's store (in state `posted`). -/
def sysBoth : Sys :=
  { m := { donations := [("d1", mdon1)], recipients := [("r1", mrec1)] },
    sm := { donations := [("d1", { id := "d1" })] } }

/-- Witness store for route planning: a volunteer and two located
donations. -/
def mRoute : MRepo :=
  { users := [("v1", { id := "v1", location := some (2, 1) })],
    donations :=
      [("d1", { id := "d1", donor_id := "u1", total_weight_kg := 1, location := some (10, 20) }),
       ("d2", { id := "d2", donor_id := "u1", total_weight_kg := 2, location := some (30, 40) })] }

/-- Witness state for pickup planning: two located donations whose
state-machine records are in `matched` and `delivered` respectively,
so the second transition to `pickup_scheduled` fails. -/
def sysPickup : Sys :=
  { m := { users := [("v1", { id := "v1", location := some (0, 0) })],
           donations :=
             [("d1", { id := "d1", donor_id := "u1", location := some (1, 1) }),
              ("d2", { id := "d2", donor_id := "u1", location := some (2, 2) })] },
    sm := { donations :=
             [("d1", { id := "d1", state := DonationState.matched }),
              ("d2", { id := "d2", state := DonationState.delivered })] } }

theorem alistGet_put_self {α : Type} (l : List (String × α)) (k : String) (v : α) :
    alistGet (alistPut l k v) k = some v := by
  induction l with
  | nil => simp [alistPut, alistGet]
  | cons p t ih =>
    by_cases h : p.1 = k
    · simp [alistPut, alistGet, h]
    · simp [alistPut, alistGet, h, ih]

theorem alistGet_put_ne {α : Type} (l : List (String × α)) (k k' : String) (v : α)
    (h : k' ≠ k) : alistGet (alistPut l k v) k' = alistGet l k' := by
  have hkk : ¬(k = k') := fun hh => h hh.symm
  induction l with
  | nil => simp [alistPut, alistGet, hkk]
  | cons p t ih =>
    by_cases hp : p.1 = k
    · simp [alistPut, alistGet, hp, hkk]
    · simp [alistPut, alistGet, hp, ih]

theorem alistPut_forall {α : Type} (P : α → Prop) (l : List (String × α)) (k : String) (v : α)
    (hl : ∀ p ∈ l, P p.2) (hv : P v) : ∀ p ∈ alistPut l k v, P p.2 := by
  induction l with
  | nil =>
    intro p hp
    simp [alistPut] at hp
    simp [hp, hv]
  | cons q t ih =>
    intro p hp
    by_cases h : q.1 = k
    · simp [alistPut, h] at hp
      rcases hp with hp | hp
      · simp [hp, hv]
      · exact hl p (List.mem_cons_of_mem q hp)
    · simp only [alistPut, if_neg h, List.mem_cons] at hp
      rcases hp with hp | hp
      · exact hl p (hp ▸ List.mem_cons_self q t)
      · exact ih (fun r hr => hl r (List.mem_cons_of_mem q hr)) p hp

theorem alistPut_fst_subset {α : Type} (l : List (String × α)) (k k' : String) (v : α)
    (h : k' ∈ (alistPut l k v).map Prod.fst) : k' ∈ l.map Prod.fst ∨ k' = k := by
  induction l with
  | nil =>
    simp [alistPut] at h
    exact Or.inr h
  | cons p t ih =>
    by_cases hp : p.1 = k
    · simp [alistPut, hp] at h
      rcases h with h | h
      · exact Or.inr h
      · exact Or.inl (by simp [h])
    · simp only [alistPut, if_neg hp, List.map_cons, List.mem_cons] at h
      rcases h with h | h
      · exact Or.inl (by simp [h])
      · rcases ih h with hh | hh
        · exact Or.inl (by simp only [List.map_cons, List.mem_cons]; exact Or.inr hh)
        · exact Or.inr hh

theorem alistWF_put {α : Type} (idOf : α → String) (l : List (String × α)) (k : String) (v : α)
    (hwf : alistWF idOf l) (hv : idOf v = k) : alistWF idOf (alistPut l k v) := by
  obtain ⟨hids, hnd⟩ := hwf
  induction l with
  | nil =>
    constructor
    · intro p hp
      simp [alistPut] at hp
      simp [hp, hv]
    · simp [alistPut]
  | cons p t ih =>
    by_cases hp : p.1 = k
    · constructor
      · intro q hq
        simp [alistPut, hp] at hq
        rcases hq with hq | hq
        · simp [hq, hv]
        · exact hids q (List.mem_cons_of_mem p hq)
      · simp only [alistPut, if_pos hp, List.map_cons] at *
        simp only [List.nodup_cons] at hnd ⊢
        exact ⟨hp ▸ hnd.1, hnd.2⟩
    · have hidt : ∀ q ∈ t, idOf q.2 = q.1 := fun q hq => hids q (List.mem_cons_of_mem p hq)
      have hndt : (t.map Prod.fst).Nodup := (List.nodup_cons.mp hnd).2
      obtain ⟨ih1, ih2⟩ := ih hidt hndt
      constructor
      · intro q hq
        simp only [alistPut, if_neg hp, List.mem_cons] at hq
        rcases hq with hq | hq
        · exact hq ▸ hids p (List.mem_cons_self p t)
        · exact ih1 q hq
      · simp only [alistPut, if_neg hp, List.map_cons, List.nodup_cons]
        refine ⟨?_, ih2⟩
        intro hmem
        rcases alistPut_fst_subset t k p.1 v hmem with hh | hh
        · exact (List.nodup_cons.mp hnd).1 hh
        · exact hp hh

theorem alistGet_of_mem {α : Type} (idOf : α → String) :
    ∀ (l : List (String × α)) (k : String) (x : α),
    alistWF idOf l → (k, x) ∈ l → alistGet l k = some x := by
  intro l
  induction l with
  | nil =>
    intro k x _ hmem
    simp at hmem
  | cons p t ih =>
    intro k x hwf hmem
    obtain ⟨hids, hnd⟩ := hwf
    rcases List.mem_cons.mp hmem with h | h
    · rw [← h]
      simp [alistGet]
    · by_cases hp : p.1 = k
      · exfalso
        have hk : k ∈ t.map Prod.fst := List.mem_map.mpr ⟨(k, x), h, rfl⟩
        exact (List.nodup_cons.mp hnd).1 (hp ▸ hk)
      · simp only [alistGet, if_neg hp]
        exact ih k x ⟨fun q hq => hids q (List.mem_cons_of_mem p hq),
          (List.nodup_cons.mp hnd).2⟩ h

theorem alistGet_of_mem_snd {α : Type} (idOf : α → String) (l : List (String × α)) (x : α)
    (hwf : alistWF idOf l) (hmem : x ∈ l.map Prod.snd) : alistGet l (idOf x) = some x := by
  obtain ⟨q, hq, hqx⟩ := List.mem_map.mp hmem
  have hk : idOf x = q.1 := by rw [← hqx]; exact hwf.1 q hq
  rw [hk]
  exact alistGet_of_mem idOf l q.1 x hwf (by rw [← hqx]; exact hq)

theorem firstMinBy_mem {α : Type} (key : α → ℚ) (l : List α) (x : α)
    (h : firstMinBy key l = some x) : x ∈ l := by
  match l with
  | [] => simp [firstMinBy] at h
  | y :: ys =>
    simp only [firstMinBy, Option.some.injEq] at h
    have aux : ∀ (zs : List α) (acc : α),
        zs.foldl (fun best q => if key q < key best then q else best) acc = acc ∨
        zs.foldl (fun best q => if key q < key best then q else best) acc ∈ zs := by
      intro zs
      induction zs with
      | nil => intro acc; exact Or.inl rfl
      | cons z t ih =>
        intro acc
        simp only [List.foldl_cons]
        by_cases hz : key z < key acc
        · simp only [if_pos hz]
          rcases ih z with hh | hh
          · refine Or.inr ?_
            rw [hh]
            exact List.mem_cons_self z t
          · exact Or.inr (List.mem_cons_of_mem z hh)
        · simp only [if_neg hz]
          rcases ih acc with hh | hh
          · exact Or.inl hh
          · exact Or.inr (List.mem_cons_of_mem z hh)
    rcases aux ys y with hh | hh
    · rw [← h, hh]
      exact List.mem_cons_self y ys
    · rw [← h]
      exact List.mem_cons_of_mem y hh

theorem firstMinBy_eq_none {α : Type} (key : α → ℚ) (l : List α) :
    firstMinBy key l = none ↔ l = [] := by
  cases l <;> simp [firstMinBy]

theorem pyRemove_length {α : Type} [DecidableEq α] (l : List α) (x : α) (h : x ∈ l) :
    (pyRemove l x).length = l.length - 1 := by
  induction l with
  | nil => simp at h
  | cons y t ih =>
    by_cases hy : y = x
    · simp [pyRemove, hy]
    · have hxt : x ∈ t := by
        rcases List.mem_cons.mp h with hh | hh
        · exact absurd hh.symm hy
        · exact hh
      have hlen : 1 ≤ t.length := List.length_pos.mpr (List.ne_nil_of_mem hxt)
      simp only [pyRemove, if_neg hy, List.length_cons, ih hxt]
      omega

theorem perm_cons_pyRemove {α : Type} [DecidableEq α] (l : List α) (x : α) (h : x ∈ l) :
    l.Perm (x :: pyRemove l x) := by
  induction l with
  | nil => simp at h
  | cons y t ih =>
    by_cases hy : y = x
    · rw [hy]
      simp [pyRemove]
    · have hxt : x ∈ t := by
        rcases List.mem_cons.mp h with hh | hh
        · exact absurd hh.symm hy
        · exact hh
      simp only [pyRemove, if_neg hy]
      exact (List.Perm.cons y (ih hxt)).trans (List.Perm.swap x y (pyRemove t x))

theorem nnLoopFuel_perm (dist : Dist) :
    ∀ (n : Nat) (cur : ℚ × ℚ) (pts : List (ℚ × ℚ)), pts.length ≤ n →
    (nnLoopFuel dist n cur pts).Perm pts := by
  intro n
  induction n with
  | zero =>
    intro cur pts hlen
    have hnil : pts = [] := List.eq_nil_of_length_eq_zero (Nat.le_zero.mp hlen)
    subst hnil
    simp [nnLoopFuel]
  | succ n ih =>
    intro cur pts hlen
    match hfm : firstMinBy (fun p => dist cur.1 cur.2 p.1 p.2) pts with
    | none =>
      have hnil : pts = [] := (firstMinBy_eq_none _ pts).mp hfm
      subst hnil
      simp [nnLoopFuel, firstMinBy]
    | some nearest =>
      have hmem : nearest ∈ pts := firstMinBy_mem _ pts nearest hfm
      have hlen2 : (pyRemove pts nearest).length ≤ n := by
        rw [pyRemove_length pts nearest hmem]
        omega
      have hrec := ih nearest (pyRemove pts nearest) hlen2
      simp only [nnLoopFuel, hfm]
      exact (List.Perm.cons nearest hrec).trans (perm_cons_pyRemove pts nearest hmem).symm

theorem transition_state_error_state {sm sm1 : SMRepo} {did : String} {ns : DonationState}
    {a n : Option String} {e : SMError}
    (h : transition_state sm did ns a n = (sm1, Except.error e)) : sm1 = sm := by
  unfold transition_state at h
  match hget : alistGet sm.donations did with
  | none =>
    rw [hget] at h
    exact (Prod.mk.injEq _ _ _ _ ▸ h).1.symm
  | some d =>
    rw [hget] at h
    by_cases h1 : ns = d.state
    · simp only [if_pos h1] at h
      exact absurd (Prod.mk.injEq _ _ _ _ ▸ h).2 (by simp)
    · by_cases h2 : ns ∈ allowedTransitions d.state
      · simp only [if_neg h1, if_pos h2] at h
        exact absurd (Prod.mk.injEq _ _ _ _ ▸ h).2 (by simp)
      · simp only [if_neg h1, if_neg h2] at h
        exact (Prod.mk.injEq _ _ _ _ ▸ h).1.symm

/-- C1: for a donation in state `from`, and any `to ≠ from` allowed by
the transition table, `transition_state` succeeds, the donation's state
in the state-machine repository becomes `to`, and exactly one audit
entry — with `old_state = from` and `new_state = to` — is appended to
that donation's audit trail. -/
theorem transition_valid_appends_one_audit (sm : SMRepo) (did : String) (d : SMDonation)
    (ts : DonationState) (a n : Option String)
    (hget : alistGet sm.donations did = some d) (hid : d.id = did)
    (hne : ts ≠ d.state) (hall : ts ∈ allowedTransitions d.state) :
    ∃ sm1, transition_state sm did ts a n = (sm1, Except.ok { d with state := ts }) ∧
      alistGet sm1.donations did = some { d with state := ts } ∧
      auditFor sm1 did = auditFor sm did ++
        [{ donation_id := did, actor_user_id := a, actor_role := smResolveRole sm a,
           old_state := some d.state, new_state := ts, notes := n }] := by
  refine ⟨(transition_state sm did ts a n).1, ?_, ?_, ?_⟩
  · simp [transition_state, hget, hne, hall]
  · simp [transition_state, hget, hne, hall, addAudit, hid, alistGet_put_self]
  · simp [transition_state, hget, hne, hall, addAudit, auditFor, hid, alistGet_put_self]

theorem transition_valid_appends_one_audit_witness :
    ∃ sm1, transition_state
        { donations := [("d1", { id := "d1", state := DonationState.posted })] }
        ("d1") DonationState.matched none none =
        (sm1, Except.ok { id := "d1", state := DonationState.matched }) ∧
      alistGet sm1.donations ("d1") = some { id := "d1", state := DonationState.matched } ∧
      auditFor sm1 ("d1") = [] ++
        [{ donation_id := "d1", actor_user_id := none, actor_role := none,
           old_state := some DonationState.posted, new_state := DonationState.matched,
           notes := none }] :=
  transition_valid_appends_one_audit
    { donations := [("d1", { id := "d1", state := DonationState.posted })] }
    ("d1") { id := "d1", state := DonationState.posted } DonationState.matched none none
    (by decide) (by decide) (by decide) (by decide)

/-- C2: for a donation in state `from`, a requested `to ≠ from` outside
the allowed-next-states of `from` (in particular any different target
from a terminal state) makes `transition_state` fail with the
invalid-transition error naming both states, with the repository — so
the donation's state and every audit trail — left unchanged. -/
theorem transition_invalid_rejected (sm : SMRepo) (did : String) (d : SMDonation)
    (ts : DonationState) (a n : Option String)
    (hget : alistGet sm.donations did = some d)
    (hne : ts ≠ d.state) (hnall : ts ∉ allowedTransitions d.state) :
    transition_state sm did ts a n = (sm, Except.error (SMError.invalidTransition d.state ts)) := by
  simp [transition_state, hget, hne, hnall]

theorem transition_invalid_rejected_witness :
    transition_state
      { donations := [("d1", { id := "d1", state := DonationState.delivered })] }
      ("d1") DonationState.posted none none =
      ({ donations := [("d1", { id := "d1", state := DonationState.delivered })] },
       Except.error (SMError.invalidTransition DonationState.delivered DonationState.posted)) :=
  transition_invalid_rejected
    { donations := [("d1", { id := "d1", state := DonationState.delivered })] }
    ("d1") { id := "d1", state := DonationState.delivered } DonationState.posted none none
    (by decide) (by decide) (by decide)

/-- C3 (counterexample): the claim says the idempotent audit entry's
note is the supplied note whenever one is supplied; but supplying the
empty string as the note records "idempotent transition" instead,
because the source computes `notes or "idempotent transition"` and the
empty string is falsy in Python. -/
theorem transition_idempotent_empty_note_cex :
    ((transition_state
        { donations := [("d1", { id := "d1", state := DonationState.posted })] }
        ("d1") DonationState.posted none (some (""))).1.audit_logs =
      [("d1", [{ donation_id := "d1", actor_user_id := none, actor_role := none,
                 old_state := some DonationState.posted, new_state := DonationState.posted,
                 notes := some ("idempotent transition") }])]) ∧
    some ("idempotent transition") ≠ some ("") := by
  constructor
  · decide
  · decide

/-- C3 (amended): a transition request equal to the current state
leaves the donation and the donation store unchanged, returns the
unchanged donation, and appends exactly one audit entry with
`old_state = new_state = s`, whose note is the supplied note except
that a missing note or an empty-string note is recorded as
"idempotent transition". -/
theorem transition_idempotent_logs_default (sm : SMRepo) (did : String) (d : SMDonation)
    (a n : Option String)
    (hget : alistGet sm.donations did = some d) (hid : d.id = did) :
    ∃ sm1, transition_state sm did d.state a n = (sm1, Except.ok d) ∧
      sm1.donations = sm.donations ∧
      auditFor sm1 did = auditFor sm did ++
        [{ donation_id := did, actor_user_id := a, actor_role := smResolveRole sm a,
           old_state := some d.state, new_state := d.state,
           notes := some (pyOr n ("idempotent transition")) }] := by
  refine ⟨(transition_state sm did d.state a n).1, ?_, ?_, ?_⟩
  · simp [transition_state, hget]
  · simp [transition_state, hget, addAudit]
  · simp [transition_state, hget, addAudit, auditFor, hid, alistGet_put_self]

theorem transition_idempotent_logs_default_witness :
    ∃ sm1, transition_state
        { donations := [("d1", { id := "d1", state := DonationState.delivered })] }
        ("d1") DonationState.delivered none none =
        (sm1, Except.ok { id := "d1", state := DonationState.delivered }) ∧
      sm1.donations = [("d1", { id := "d1", state := DonationState.delivered })] ∧
      auditFor sm1 ("d1") = [] ++
        [{ donation_id := "d1", actor_user_id := none, actor_role := none,
           old_state := some DonationState.delivered, new_state := DonationState.delivered,
           notes := some ("idempotent transition") }] :=
  transition_idempotent_logs_default
    { donations := [("d1", { id := "d1", state := DonationState.delivered })] }
    ("d1") { id := "d1", state := DonationState.delivered } none none
    (by decide) (by decide)

theorem alistGet_wf_id {α : Type} (idOf : α → String) :
    ∀ (l : List (String × α)) (k : String) (x : α),
    alistWF idOf l → alistGet l k = some x → idOf x = k := by
  intro l
  induction l with
  | nil => intro k x _ h; simp [alistGet] at h
  | cons p t ih =>
    intro k x hwf h
    by_cases hp : p.1 = k
    · simp only [alistGet, if_pos hp] at h
      have hx : p.2 = x := Option.some.inj h
      rw [← hx]
      exact (hwf.1 p (List.mem_cons_self p t)).trans hp
    · simp only [alistGet, if_neg hp] at h
      exact ih k x ⟨fun q hq => hwf.1 q (List.mem_cons_of_mem p hq),
        (List.nodup_cons.mp hwf.2).2⟩ h

theorem matchCandidates_sound (dist : Dist) (maxKm : ℚ) (m : MRepo) (need dlat dlon dd : ℚ)
    (r : MRecipient) (h : (dd, r) ∈ matchCandidates dist maxKm m need dlat dlon) :
    r ∈ listRecipients m ∧ need ≤ r.capacity_kg := by
  simp only [matchCandidates, List.mem_filterMap] at h
  obtain ⟨a, hmem, ha⟩ := h
  by_cases hc : need ≤ a.capacity_kg
  · rw [if_pos hc] at ha
    match hl : a.location with
    | none =>
      rw [hl] at ha
      exact absurd ha (by simp)
    | some rloc =>
      rw [hl] at ha
      simp only at ha
      by_cases hd : dist dlat dlon rloc.2 rloc.1 ≤ maxKm
      · rw [if_pos hd] at ha
        have har : a = r := (Prod.mk.injEq _ _ _ _ ▸ Option.some.inj ha).2
        exact ⟨har ▸ hmem, har ▸ hc⟩
      · rw [if_neg hd] at ha
        exact absurd ha (by simp)
  · rw [if_neg hc] at ha
    exact absurd ha (by simp)

theorem matchStep_nonneg (dist : Dist) (maxKm : ℚ) (s : Sys) (d : MDonation)
    (h : ∀ p ∈ s.m.recipients, 0 ≤ (p.2 : MRecipient).capacity_kg) :
    ∀ p ∈ (matchStep dist maxKm s d).1.m.recipients, 0 ≤ (p.2 : MRecipient).capacity_kg := by
  unfold matchStep
  match hloc : d.location with
  | none => simpa using h
  | some loc =>
    simp only
    match hfm : firstMinBy Prod.fst
        (matchCandidates dist maxKm s.m d.total_weight_kg loc.2 loc.1) with
    | none => simpa using h
    | some c =>
      simp only
      have hc : c ∈ matchCandidates dist maxKm s.m d.total_weight_kg loc.2 loc.1 :=
        firstMinBy_mem _ _ _ hfm
      have hcap : d.total_weight_kg ≤ c.2.capacity_kg :=
        (matchCandidates_sound dist maxKm s.m d.total_weight_kg loc.2 loc.1 c.1 c.2 hc).2
      rcases hres : transition_state s.sm d.id DonationState.matched none (some ("auto-match"))
        with ⟨sm1, res⟩
      cases res with
      | error e => simpa using h
      | ok dd =>
        simp only
        exact alistPut_forall (fun r : MRecipient => 0 ≤ r.capacity_kg) _ _ _ h
          (sub_nonneg.mpr hcap)

theorem greedyLoop_nonneg (dist : Dist) (maxKm : ℚ) :
    ∀ (ds : List MDonation) (s : Sys) (acc : List (String × String)),
    (∀ p ∈ s.m.recipients, 0 ≤ (p.2 : MRecipient).capacity_kg) →
    ∀ p ∈ (greedyLoop dist maxKm ds s acc).1.m.recipients, 0 ≤ (p.2 : MRecipient).capacity_kg := by
  intro ds
  induction ds with
  | nil =>
    intro s acc h
    simpa [greedyLoop] using h
  | cons d rest ih =>
    intro s acc h
    have hstep := matchStep_nonneg dist maxKm s d h
    rcases hms : matchStep dist maxKm s d with ⟨s1, res⟩
    rw [hms] at hstep
    simp only [greedyLoop, hms]
    cases res with
    | error e => simpa using hstep
    | ok o =>
      cases o with
      | none => exact ih s1 acc hstep
      | some pr => exact ih s1 (acc ++ [pr]) hstep

/-- C5: a matching run never drives a recipient's remaining capacity
negative — starting from a store where all capacities are non-negative,
after `greedy_match_local` (whether it returns or aborts on an
exception, for any search radius and any distance function) all
capacities are still non-negative, because a candidate must satisfy
`capacity_kg >= need` before it can be chosen and decremented. -/
theorem greedy_capacity_nonneg (dist : Dist) (maxKm : ℚ) (s : Sys)
    (h : ∀ p ∈ s.m.recipients, 0 ≤ (p.2 : MRecipient).capacity_kg) :
    ∀ p ∈ (greedy_match_local dist maxKm s).1.m.recipients, 0 ≤ (p.2 : MRecipient).capacity_kg :=
  greedyLoop_nonneg dist maxKm (list_open_donations s.m) s [] h

theorem greedy_capacity_nonneg_witness :
    (∀ p ∈ sysBoth.m.recipients, 0 ≤ (p.2 : MRecipient).capacity_kg) ∧
    ∀ p ∈ (greedy_match_local dist0 10 sysBoth).1.m.recipients, 0 ≤ (p.2 : MRecipient).capacity_kg :=
  ⟨by decide, greedy_capacity_nonneg dist0 10 sysBoth (by decide)⟩

/-- C6: per processed donation, the state transition and the capacity
decrement happen together or not at all.  If the `transition_state`
call raises, the step aborts with the recipient store untouched and no
assignment reported; if the step reports an assignment `(did, rid)`,
then the transition succeeded (and the step's final state-machine
store is the one it produced) and `rid`'s capacity was decremented by
exactly the donation's weight. -/
theorem matchStep_transactional (dist : Dist) (maxKm : ℚ) (s : Sys) (d : MDonation)
    (hwf : alistWF MRecipient.id s.m.recipients) :
    (∀ s1 e, matchStep dist maxKm s d = (s1, Except.error e) →
      s1.m.recipients = s.m.recipients) ∧
    (∀ s1 did rid, matchStep dist maxKm s d = (s1, Except.ok (some (did, rid))) →
      did = d.id ∧
      (∃ dd sm1, transition_state s.sm d.id DonationState.matched none (some ("auto-match")) =
          (sm1, Except.ok dd) ∧ s1.sm = sm1) ∧
      (∃ c : MRecipient, alistGet s.m.recipients rid = some c ∧
        alistGet s1.m.recipients rid =
          some { c with capacity_kg := c.capacity_kg - d.total_weight_kg })) := by
  unfold matchStep
  match hloc : d.location with
  | none =>
    constructor
    · intro s1 e h
      simp at h
    · intro s1 did rid h
      simp at h
  | some loc =>
    simp only
    match hfm : firstMinBy Prod.fst
        (matchCandidates dist maxKm s.m d.total_weight_kg loc.2 loc.1) with
    | none =>
      constructor
      · intro s1 e h
        simp at h
      · intro s1 did rid h
        simp at h
    | some c =>
      simp only
      have hc : c ∈ matchCandidates dist maxKm s.m d.total_weight_kg loc.2 loc.1 :=
        firstMinBy_mem _ _ _ hfm
      have hcsnd : c.2 ∈ listRecipients s.m :=
        (matchCandidates_sound dist maxKm s.m d.total_weight_kg loc.2 loc.1 c.1 c.2 hc).1
      rcases hres : transition_state s.sm d.id DonationState.matched none (some ("auto-match"))
        with ⟨sm1, res⟩
      cases res with
      | error e0 =>
        constructor
        · intro s1 e h
          simp only at h
          have := (Prod.mk.injEq _ _ _ _ ▸ h).1
          rw [← this]
        · intro s1 did rid h
          simp only at h
          exact absurd (Prod.mk.injEq _ _ _ _ ▸ h).2 (by simp)
      | ok dd =>
        constructor
        · intro s1 e h
          simp only at h
          exact absurd (Prod.mk.injEq _ _ _ _ ▸ h).2 (by simp)
        · intro s1 did rid h
          simp only at h
          have h1 := (Prod.mk.injEq _ _ _ _ ▸ h).1
          have h2 := (Prod.mk.injEq _ _ _ _ ▸ h).2
          have h3 : (d.id, c.2.id) = (did, rid) :=
            Option.some.inj (Except.ok.inj h2)
          have hdid : did = d.id := ((Prod.mk.injEq _ _ _ _ ▸ h3).1).symm
          have hrid : rid = c.2.id := ((Prod.mk.injEq _ _ _ _ ▸ h3).2).symm
          refine ⟨hdid, ⟨dd, sm1, rfl, by rw [← h1]⟩, ⟨c.2, ?_, ?_⟩⟩
          · rw [hrid]
            exact alistGet_of_mem_snd MRecipient.id s.m.recipients c.2 hwf hcsnd
          · rw [← h1, hrid]
            exact alistGet_put_self _ _ _

theorem matchStep_transactional_witness :
    ("d1" = mdon1.id) ∧
    (∃ dd sm1, transition_state sysBoth.sm mdon1.id DonationState.matched none
        (some ("auto-match")) = (sm1, Except.ok dd) ∧
      (matchStep dist0 10 sysBoth mdon1).1.sm = sm1) ∧
    (∃ c : MRecipient, alistGet sysBoth.m.recipients ("r1") = some c ∧
      alistGet (matchStep dist0 10 sysBoth mdon1).1.m.recipients ("r1") =
        some { c with capacity_kg := c.capacity_kg - mdon1.total_weight_kg }) := by
  have h2 : (matchStep dist0 10 sysBoth mdon1).2 = Except.ok (some ("d1", "r1")) := by decide
  have heq : matchStep dist0 10 sysBoth mdon1 =
      ((matchStep dist0 10 sysBoth mdon1).1, Except.ok (some ("d1", "r1"))) := by
    rw [← h2]
  exact (matchStep_transactional dist0 10 sysBoth mdon1 (by decide)).2
    (matchStep dist0 10 sysBoth mdon1).1 ("d1") ("r1") heq

/-- C9: state_machine.py and models_repo.py each build their own
repository, and the `transition_state` api_app imports reads only the
state-machine one.  For a donation id present in the models_repo store
but absent from the state-machine store, `transition_state` fails with
the donation-not-found error no matter what the models_repo store
contains, and the auto-match transition `greedy_match_local` attempts
for such a donation (whenever a candidate recipient is in range)
raises that error. -/
theorem transition_uses_state_machine_repo (s : Sys) (did : String) (d : MDonation)
    (dist : Dist) (maxKm : ℚ) (ns : DonationState) (a n : Option String)
    (_hm : alistGet s.m.donations did = some d) (hid : d.id = did)
    (hsm : alistGet s.sm.donations did = none) :
    transition_state s.sm did ns a n = (s.sm, Except.error SMError.donationNotFound) ∧
    (∀ loc, d.location = some loc →
      matchCandidates dist maxKm s.m d.total_weight_kg loc.2 loc.1 ≠ [] →
      (matchStep dist maxKm s d).2 = Except.error SMError.donationNotFound) := by
  constructor
  · simp [transition_state, hsm]
  · intro loc hloc hcand
    obtain ⟨c, hc⟩ : ∃ c, firstMinBy Prod.fst
        (matchCandidates dist maxKm s.m d.total_weight_kg loc.2 loc.1) = some c := by
      match hl : matchCandidates dist maxKm s.m d.total_weight_kg loc.2 loc.1 with
      | [] => exact absurd hl hcand
      | x :: xs => exact ⟨_, rfl⟩
    have htr : transition_state s.sm d.id DonationState.matched none (some ("auto-match")) =
        (s.sm, Except.error SMError.donationNotFound) := by
      rw [hid]
      simp [transition_state, hsm]
    simp only [matchStep, hloc, hc, htr]

theorem transition_uses_state_machine_repo_witness :
    (matchStep dist0 10 sysCross mdon1).2 = Except.error SMError.donationNotFound :=
  (transition_uses_state_machine_repo sysCross ("d1") mdon1 dist0 10
    DonationState.matched none none (by decide) (by decide) (by decide)).2
    (0, 0) (by decide) (by decide)

/-- C4 (failing evaluation): with the donation and an in-range,
sufficient-capacity recipient in the models_repo store but the
state-machine store empty — the situation every api_app-only call
sequence produces — the matching run does not match the donation and
append the assignment as the claim states: the `transition_state` call
raises the donation-not-found error, aborting the run; the donation is
left in state `posted` with a dangling `matched_recipient_id`. -/
theorem greedy_cross_repo_run_fails :
    (greedy_match_local dist0 10 sysCross).2 = Except.error SMError.donationNotFound ∧
    ((greedy_match_local dist0 10 sysCross).1.m.donations.map
      (fun p => (p.2.state, p.2.matched_recipient_id))) =
      [(DonationState.posted, some ("r1"))] := by
  constructor
  · decide
  · decide

/-- C8 (failing evaluation): even when the state-machine store also
holds the donation so the first run completes with an assignment, a
second run with nothing added re-matches the same donation and
decrements the recipient again (100 → 95 → 90), because the first
run's state change went to the state-machine store while
`list_open_donations` reads the models_repo store, where the donation
is still `posted`. -/
theorem greedy_second_run_rematches :
    (greedy_match_local dist0 10 sysBoth).2 = Except.ok [("d1", "r1")] ∧
    (greedy_match_local dist0 10 (greedy_match_local dist0 10 sysBoth).1).2 =
      Except.ok [("d1", "r1")] ∧
    ((greedy_match_local dist0 10 (greedy_match_local dist0 10 sysBoth).1).1.m.recipients.map
      (fun p => p.2.capacity_kg)) = [90] := by
  refine ⟨by decide, by with_unfolding_all decide, by with_unfolding_all decide⟩

theorem collectPoints_ok (m : MRepo) :
    ∀ (dids : List String),
    (∀ did ∈ dids, ∃ d, alistGet m.donations did = some d ∧ d.location.isSome) →
    collectPoints m dids =
      Except.ok (dids.filterMap (fun did =>
        ((alistGet m.donations did).bind (fun dd => dd.location)).map Prod.swap)) := by
  intro dids
  induction dids with
  | nil =>
    intro h
    simp [collectPoints]
  | cons did rest ih =>
    intro h
    obtain ⟨d, hd, hl⟩ := h did (List.mem_cons_self did rest)
    obtain ⟨loc, hloc⟩ := Option.isSome_iff_exists.mp hl
    have hrest := ih (fun y hy => h y (List.mem_cons_of_mem did hy))
    simp only [collectPoints, hd, hloc, hrest, List.filterMap_cons]
    simp [hd, hloc, Prod.swap]

/-- C7: for a volunteer with a location and donation ids that all
resolve to located donations, `plan_route_local` succeeds and its
result is a permutation (as a multiset — nothing lost, nothing
duplicated) of the referenced donations' stored (lon, lat) coordinate
pairs, each returned with the axes swapped to (lat, lon). -/
theorem plan_route_perm (dist : Dist) (m : MRepo) (vid : String) (dids : List String)
    (v : MUser) (vloc : ℚ × ℚ)
    (hv : alistGet m.users vid = some v) (hvloc : v.location = some vloc)
    (_hne : dids ≠ [])
    (hd : ∀ did ∈ dids, ∃ d, alistGet m.donations did = some d ∧ d.location.isSome) :
    ∃ r, plan_route_local dist m vid dids = Except.ok r ∧
      r.Perm (dids.filterMap (fun did =>
        ((alistGet m.donations did).bind (fun dd => dd.location)).map Prod.swap)) := by
  have hc := collectPoints_ok m dids hd
  have hres : plan_route_local dist m vid dids =
      Except.ok (nnLoopFuel dist
        (dids.filterMap (fun did =>
          ((alistGet m.donations did).bind (fun dd => dd.location)).map Prod.swap)).length
        (vloc.2, vloc.1)
        (dids.filterMap (fun did =>
          ((alistGet m.donations did).bind (fun dd => dd.location)).map Prod.swap))) := by
    simp only [plan_route_local, hv, hvloc, hc]
  exact ⟨_, hres, nnLoopFuel_perm dist _ _ _ le_rfl⟩

theorem plan_route_perm_witness :
    ∃ r, plan_route_local dist0 mRoute ("v1") ["d1", "d2"] = Except.ok r ∧
      r.Perm (["d1", "d2"].filterMap (fun did =>
        ((alistGet mRoute.donations did).bind (fun dd => dd.location)).map Prod.swap)) := by
  refine plan_route_perm dist0 mRoute ("v1") ["d1", "d2"]
    { id := "v1", location := some (2, 1) } (2, 1) (by decide) (by decide) (by decide) ?_
  intro did hdid
  simp only [List.mem_cons, List.not_mem_nil, or_false] at hdid
  rcases hdid with rfl | rfl
  · exact ⟨_, rfl, rfl⟩
  · exact ⟨_, rfl, rfl⟩

theorem transition_ok_smWF {sm sm1 : SMRepo} {did : String} {ns : DonationState}
    {a n : Option String} {dd : SMDonation}
    (hwf : alistWF SMDonation.id sm.donations)
    (h : transition_state sm did ns a n = (sm1, Except.ok dd)) :
    alistWF SMDonation.id sm1.donations := by
  unfold transition_state at h
  match hget : alistGet sm.donations did with
  | none =>
    rw [hget] at h
    exact absurd (Prod.mk.injEq _ _ _ _ ▸ h).2 (by simp)
  | some d =>
    rw [hget] at h
    by_cases h1 : ns = d.state
    · simp only [if_pos h1] at h
      have hsm1 := (Prod.mk.injEq _ _ _ _ ▸ h).1
      rw [← hsm1]
      exact hwf
    · by_cases h2 : ns ∈ allowedTransitions d.state
      · simp only [if_neg h1, if_pos h2] at h
        have hsm1 := (Prod.mk.injEq _ _ _ _ ▸ h).1
        rw [← hsm1]
        exact alistWF_put SMDonation.id sm.donations _ _ hwf rfl
      · simp only [if_neg h1, if_neg h2] at h
        exact absurd (Prod.mk.injEq _ _ _ _ ▸ h).2 (by simp)

theorem transition_ok_state {sm sm1 : SMRepo} {did : String} {ns : DonationState}
    {a n : Option String} {dd : SMDonation}
    (hwf : alistWF SMDonation.id sm.donations)
    (h : transition_state sm did ns a n = (sm1, Except.ok dd)) :
    ∃ x, alistGet sm1.donations did = some x ∧ x.state = ns := by
  unfold transition_state at h
  match hget : alistGet sm.donations did with
  | none =>
    rw [hget] at h
    exact absurd (Prod.mk.injEq _ _ _ _ ▸ h).2 (by simp)
  | some d =>
    rw [hget] at h
    have hdid : d.id = did := alistGet_wf_id SMDonation.id sm.donations did d hwf hget
    by_cases h1 : ns = d.state
    · simp only [if_pos h1] at h
      have hsm1 := (Prod.mk.injEq _ _ _ _ ▸ h).1
      refine ⟨d, ?_, h1.symm⟩
      rw [← hsm1]
      exact hget
    · by_cases h2 : ns ∈ allowedTransitions d.state
      · simp only [if_neg h1, if_pos h2] at h
        have hsm1 := (Prod.mk.injEq _ _ _ _ ▸ h).1
        refine ⟨{ d with state := ns }, ?_, rfl⟩
        rw [← hsm1]
        simp only [addAudit]
        have hkey : ({ d with state := ns } : SMDonation).id = did := hdid
        rw [hkey]
        exact alistGet_put_self _ _ _
      · simp only [if_neg h1, if_neg h2] at h
        exact absurd (Prod.mk.injEq _ _ _ _ ▸ h).2 (by simp)

theorem transition_pres_sched {sm sm1 : SMRepo} {did x : String}
    {a n : Option String} {dd e1 : SMDonation}
    (hwf : alistWF SMDonation.id sm.donations)
    (hx : alistGet sm.donations x = some e1) (hs : e1.state = DonationState.pickup_scheduled)
    (h : transition_state sm did DonationState.pickup_scheduled a n = (sm1, Except.ok dd)) :
    ∃ e2, alistGet sm1.donations x = some e2 ∧ e2.state = DonationState.pickup_scheduled := by
  unfold transition_state at h
  match hget : alistGet sm.donations did with
  | none =>
    rw [hget] at h
    exact absurd (Prod.mk.injEq _ _ _ _ ▸ h).2 (by simp)
  | some d =>
    rw [hget] at h
    have hdid : d.id = did := alistGet_wf_id SMDonation.id sm.donations did d hwf hget
    by_cases h1 : DonationState.pickup_scheduled = d.state
    · simp only [if_pos h1] at h
      have hsm1 := (Prod.mk.injEq _ _ _ _ ▸ h).1
      refine ⟨e1, ?_, hs⟩
      rw [← hsm1]
      exact hx
    · by_cases h2 : DonationState.pickup_scheduled ∈ allowedTransitions d.state
      · simp only [if_neg h1, if_pos h2] at h
        have hsm1 := (Prod.mk.injEq _ _ _ _ ▸ h).1
        by_cases hxd : x = did
        · exfalso
          rw [hxd, hget] at hx
          have hde : d = e1 := Option.some.inj hx
          exact h1 (by rw [← hde] at hs; exact hs.symm)
        · refine ⟨e1, ?_, hs⟩
          rw [← hsm1]
          simp only [addAudit]
          have hkey : ({ d with state := DonationState.pickup_scheduled } : SMDonation).id = did :=
            hdid
          rw [hkey]
          rw [alistGet_put_ne _ _ _ _ hxd]
          exact hx
      · simp only [if_neg h1, if_neg h2] at h
        exact absurd (Prod.mk.injEq _ _ _ _ ▸ h).2 (by simp)

theorem pickupLoop_pickups (pid vid : String) :
    ∀ (dids : List String) (s : Sys), (pickupLoop pid vid dids s).1.m.pickups = s.m.pickups := by
  intro dids
  induction dids with
  | nil => intro s; rfl
  | cons did rest ih =>
    intro s
    cases hget : alistGet s.m.donations did with
    | none => simp [pickupLoop, hget]
    | some d =>
      simp only [pickupLoop, hget]
      rcases htr : transition_state s.sm d.id DonationState.pickup_scheduled (some vid)
          (some ("pickup " ++ pid ++ " planned")) with ⟨sm1, res⟩
      cases res with
      | error e => rfl
      | ok dd => exact ih _

theorem pickupLoop_pres (pid vid : String) :
    ∀ (dids : List String) (s : Sys) (x : String),
    alistWF SMDonation.id s.sm.donations → PickedUp pid x s →
    PickedUp pid x (pickupLoop pid vid dids s).1 := by
  intro dids
  induction dids with
  | nil => intro s x _ hp; exact hp
  | cons did rest ih =>
    intro s x hwf hp
    cases hget : alistGet s.m.donations did with
    | none => simpa [pickupLoop, hget] using hp
    | some d =>
      simp only [pickupLoop, hget]
      rcases htr : transition_state s.sm d.id DonationState.pickup_scheduled (some vid)
          (some ("pickup " ++ pid ++ " planned")) with ⟨sm1, res⟩
      cases res with
      | error e =>
        have hsm : sm1 = s.sm := transition_state_error_state htr
        subst hsm
        exact hp
      | ok dd =>
        have hwf2 : alistWF SMDonation.id sm1.donations := transition_ok_smWF hwf htr
        obtain ⟨⟨d1, hd1, hpk⟩, ⟨e1, he1, hst⟩⟩ := hp
        refine ih _ x hwf2 ⟨?_, ?_⟩
        · by_cases hxd : x = d.id
          · refine ⟨{ d with pickup_id := some pid }, ?_, rfl⟩
            rw [hxd]
            exact alistGet_put_self _ _ _
          · exact ⟨d1, by rw [alistGet_put_ne _ _ _ _ hxd]; exact hd1, hpk⟩
        · exact transition_pres_sched hwf he1 hst htr

theorem pickupLoop_err (pid vid : String) :
    ∀ (dids : List String) (s s1 : Sys) (e : AppError),
    alistWF MDonation.id s.m.donations → alistWF SMDonation.id s.sm.donations →
    pickupLoop pid vid dids s = (s1, some e) →
    s1.m.pickups = s.m.pickups ∧
    ∃ pre dk post, dids = pre ++ dk :: post ∧ ∀ x ∈ pre, PickedUp pid x s1 := by
  intro dids
  induction dids with
  | nil =>
    intro s s1 e _ _ h
    simp [pickupLoop] at h
  | cons did rest ih =>
    intro s s1 e hmw hsw h
    simp only [pickupLoop] at h
    match hget : alistGet s.m.donations did with
    | none =>
      rw [hget] at h
      simp only at h
      have h1 := (Prod.mk.injEq _ _ _ _ ▸ h).1
      exact ⟨by rw [← h1], [], did, rest, rfl, by simp⟩
    | some d =>
      rw [hget] at h
      simp only at h
      rcases htr : transition_state s.sm d.id DonationState.pickup_scheduled (some vid)
          (some ("pickup " ++ pid ++ " planned")) with ⟨sm1, res⟩
      rw [htr] at h
      cases res with
      | error e0 =>
        simp only at h
        have h1 := (Prod.mk.injEq _ _ _ _ ▸ h).1
        exact ⟨by rw [← h1], [], did, rest, rfl, by simp⟩
      | ok dd =>
        simp only at h
        have hmw2 : alistWF MDonation.id
            (alistPut s.m.donations d.id { d with pickup_id := some pid }) :=
          alistWF_put MDonation.id s.m.donations _ _ hmw rfl
        have hsw2 : alistWF SMDonation.id sm1.donations := transition_ok_smWF hsw htr
        obtain ⟨hpk, pre, dk, post, heq, hpre⟩ := ih _ s1 e hmw2 hsw2 h
        refine ⟨by rw [hpk], did :: pre, dk, post, by simp [heq], ?_⟩
        intro x hx
        rcases List.mem_cons.mp hx with hx | hx
        · subst hx
          have hdid : d.id = x := alistGet_wf_id MDonation.id s.m.donations x d hmw hget
          have hP2 : PickedUp pid x (Sys.mk
              { s.m with donations := alistPut s.m.donations d.id { d with pickup_id := some pid } }
              sm1) := by
            refine ⟨⟨{ d with pickup_id := some pid }, ?_, rfl⟩, ?_⟩
            · rw [← hdid]
              exact alistGet_put_self _ _ _
            · have hts := transition_ok_state hsw htr
              rw [hdid] at hts
              exact hts
          have hfin := pickupLoop_pres pid vid rest _ x hsw2 hP2
          rw [h] at hfin
          exact hfin
        · exact hpre x hx

/-- C10: when `plan_pickup` fails because a `transition_state` call in
its donation loop raises, the Pickup record it stored before the loop
is still present in the final store (with the requested volunteer and
donation list), and there is a decomposition of the donation list into
a prefix, the failing donation and a suffix such that every donation
of the prefix keeps its applied effects: state `pickup_scheduled` in
the state-machine store and `pickup_id` set in the models_repo store —
the operation's effects are partially applied, not rolled back. -/
theorem plan_pickup_keeps_effects_on_error (dist : Dist) (s : Sys) (vid : String)
    (dids : List String) (s1 : Sys) (e : SMError)
    (hmw : alistWF MDonation.id s.m.donations)
    (hsw : alistWF SMDonation.id s.sm.donations)
    (h : plan_pickup dist s vid dids = (s1, Except.error (AppError.smErr e))) :
    ∃ pid p, alistGet s1.m.pickups pid = some p ∧
      p.volunteer_id = some vid ∧ p.donation_ids = dids ∧
      ∃ pre dk post, dids = pre ++ dk :: post ∧ ∀ x ∈ pre, PickedUp pid x s1 := by
  unfold plan_pickup at h
  match hroute : plan_route_local dist s.m vid dids with
  | Except.error e0 =>
    rw [hroute] at h
    simp at h
  | Except.ok ordered =>
    rw [hroute] at h
    simp only at h
    rcases hloop : pickupLoop (genPickupId s.m.nextId) vid dids
        { m := { s.m with
            pickups := alistPut s.m.pickups (genPickupId s.m.nextId)
              { id := genPickupId s.m.nextId, volunteer_id := some vid,
                donation_ids := dids, route_order := ordered },
            nextId := s.m.nextId + 1 },
          sm := s.sm } with ⟨s2, oe⟩
    rw [hloop] at h
    cases oe with
    | none => simp at h
    | some e2 =>
      simp only at h
      have h1 := (Prod.mk.injEq _ _ _ _ ▸ h).1
      have h2 := (Prod.mk.injEq _ _ _ _ ▸ h).2
      obtain ⟨hpk, pre, dk, post, heq, hpre⟩ :=
        pickupLoop_err (genPickupId s.m.nextId) vid dids
          (Sys.mk { s.m with
            pickups := alistPut s.m.pickups (genPickupId s.m.nextId)
              { id := genPickupId s.m.nextId, volunteer_id := some vid,
                donation_ids := dids, route_order := ordered },
            nextId := s.m.nextId + 1 } s.sm) s2 e2 hmw hsw hloop
      refine ⟨genPickupId s.m.nextId,
        { id := genPickupId s.m.nextId, volunteer_id := some vid,
          donation_ids := dids, route_order := ordered }, ?_, rfl, rfl,
        pre, dk, post, heq, ?_⟩
      · rw [← h1, hpk]
        exact alistGet_put_self _ _ _
      · intro x hx
        rw [← h1]
        exact hpre x hx

theorem plan_pickup_keeps_effects_on_error_witness :
    ∃ pid p, alistGet (plan_pickup dist0 sysPickup ("v1") ["d1", "d2"]).1.m.pickups pid = some p ∧
      p.volunteer_id = some ("v1") ∧ p.donation_ids = ["d1", "d2"] ∧
      ∃ pre dk post, ["d1", "d2"] = pre ++ dk :: post ∧
        ∀ x ∈ pre, PickedUp pid x (plan_pickup dist0 sysPickup ("v1") ["d1", "d2"]).1 := by
  have h2 : (plan_pickup dist0 sysPickup ("v1") ["d1", "d2"]).2 =
      Except.error (AppError.smErr
        (SMError.invalidTransition DonationState.delivered DonationState.pickup_scheduled)) := by
    decide
  have heq : plan_pickup dist0 sysPickup ("v1") ["d1", "d2"] =
      ((plan_pickup dist0 sysPickup ("v1") ["d1", "d2"]).1,
       Except.error (AppError.smErr
        (SMError.invalidTransition DonationState.delivered DonationState.pickup_scheduled))) := by
    rw [← h2]
  exact plan_pickup_keeps_effects_on_error dist0 sysPickup ("v1") ["d1", "d2"]
    (plan_pickup dist0 sysPickup ("v1") ["d1", "d2"]).1
    (SMError.invalidTransition DonationState.delivered DonationState.pickup_scheduled)
    (by decide) (by decide) heq

end ShareTray
